import Mathlib

/-!
Verification of the concurrent capture orchestrator in `twitter_gui.py`
(repository Working_Bot).

The development shallowly embeds the pure decision logic of the script:
the per-item extraction loop of `process_accounts`, its per-target
navigation retry loop, the round-robin batch partitioning and the
persistence decision of `run_automation`, and the retry loop of
`save_excel`.  External effects (Playwright navigation, screenshots,
actual file writes) are abstracted as environments describing their
outcomes; timestamps are represented by an item's age in seconds as a
rational number, matching the float arithmetic of `minutes_ago`.  The
cancellation token is modelled in the state where a claim depends on it;
claims about uncancelled behaviour take the token to be unset, which is
faithful because the token is monotone within a run.
-/

/-- Age of an item in minutes, from its age in seconds: embeds
`minutes_ago`, which returns `(now - tweet_time_utc).total_seconds() / 60`. -/
def minutesAgo (ageSeconds : ℚ) : ℚ := ageSeconds / 60

/-- Splitting a character list at every occurrence of `c`, keeping empty
segments: the semantics of Python's `str.split` with a one-character
separator. -/
def splitChar (c : Char) : List Char → List (List Char)
  | [] => [[]]
  | x :: xs =>
    match splitChar c xs with
    | [] => [[]]
    | h :: t => if x = c then [] :: h :: t else (x :: h) :: t

/-- `link.split("/")` as used in `process_accounts`. -/
def pySplit (s : String) : List String := (splitChar '/' s.data).map List.asString

/-- `tweet_link.split("/")[3]`: the account handle segment of a permalink. -/
def handleOf (link : String) : String := (pySplit link).getD 3 ""

/-- `tweet_link.split("/")[-1]`: the final segment of a permalink. -/
def tweetIdOf (link : String) : String := ((pySplit link).getLast?).getD ""

/-- The artifact file name `f"{handle}_{tweet_id}.png"` built in
`process_accounts`. -/
def screenshotName (link : String) : String :=
  handleOf link ++ "_" ++ tweetIdOf link ++ ".png"

/-- One candidate item (an `article` element) on a rendered page.
`time` is the parsed timestamp, given as the item's age in seconds;
`none` covers both a missing `datetime` attribute and an unparseable one
(both paths skip the item).  `captureFails` abstracts a per-item
exception raised while resolving the link or taking the screenshot. -/
structure Item where
  pinned : Bool
  time : Option ℚ
  link : String
  captureFails : Bool
deriving DecidableEq, Repr

/-- One captured result, the dict appended to `results_list`.  The two
display-formatted PKT time strings are represented by the item's age in
seconds; the image hyperlink is represented by the screenshot file name. -/
structure CaptureRec where
  accountHandle : String
  tweetLink : String
  shotFile : String
  ageSeconds : ℚ
deriving DecidableEq, Repr

/-- The record built for a qualifying item. -/
def mkRecord (it : Item) (age : ℚ) : CaptureRec :=
  ⟨handleOf it.link, it.link, screenshotName it.link, age⟩

/-- The body of the per-item loop of `process_accounts` (lines 225–279):
skip when pinned, when the timestamp is missing/unparseable, when older
than the window, or when a per-item exception occurs; otherwise emit. -/
def tweetStep (w : ℚ) (it : Item) : Option CaptureRec :=
  if it.pinned then none
  else
    match it.time with
    | none => none
    | some age =>
      if minutesAgo age > w then none
      else if it.captureFails then none
      else some (mkRecord it age)

/-- The extraction loop `for i in range(min(tweet_count, max_tweets))`
with `continue` on each skip: it scans the first `maxTweets` items in
document order and emits the qualifying ones among them. -/
def extractLoop (items : List Item) (maxTweets : ℕ) (w : ℚ) : List CaptureRec :=
  (items.take maxTweets).filterMap (tweetStep w)

/-- The extraction the spec's words describe for claim C1: keep emitting
until `maxTweets` QUALIFYING items have been produced, so skipped items
do not count against the cap.  Stated for comparison with `extractLoop`. -/
def extractLoopSpec (items : List Item) (maxTweets : ℕ) (w : ℚ) : List CaptureRec :=
  (items.filterMap (tweetStep w)).take maxTweets

/-- The primary Excel output path
`os.path.join(BASE_DIR, f"captured_tweets_{run_time}.xlsx")`. -/
def primaryPath (baseDir runTime : String) : String :=
  baseDir ++ "/captured_tweets_" ++ runTime ++ ".xlsx"

/-- The partial Excel output path
`os.path.join(BASE_DIR, f"captured_tweets_{run_time}_partial.xlsx")`. -/
def partialPath (baseDir runTime : String) : String :=
  baseDir ++ "/captured_tweets_" ++ runTime ++ "_partial.xlsx"

/-- The persistence decision at the end of `run_automation`
(lines 452–477): which path, if any, the results are routed to.
`stopSet` is the state of `stop_event` at the end of the run. -/
def decidePersistence (stopSet : Bool) (results : List CaptureRec)
    (baseDir runTime : String) : Option String :=
  if results.length > 0 then
    if stopSet then some (partialPath baseDir runTime)
    else some (primaryPath baseDir runTime)
  else none

/-- The Python extended slice `l[i::W]` once the first `i` elements are
dropped: take the head, then skip `W - 1` elements, repeatedly. -/
def pySliceStep (W : ℕ) : List α → List α
  | [] => []
  | a :: rest => a :: pySliceStep W (rest.drop (W - 1))
termination_by l => l.length
decreasing_by simp [List.length_drop]; omega

/-- The Python extended slice `links[i::W]` (for `1 ≤ W`). -/
def pySlice (l : List α) (i W : ℕ) : List α := pySliceStep W (l.drop i)

/-- The round-robin partition
`batches = [links[i::max_workers] for i in range(max_workers)]`. -/
def makeBatches (links : List α) (W : ℕ) : List (List α) :=
  (List.range W).map (fun i => pySlice links i W)

/-- Outcome of one `page.goto` navigation attempt. -/
inductive NavResult
  | ok
  | navError
deriving DecidableEq, Repr

/-- The recovery performed before a retry: `context.new_page()` when the
page is closed, `page.reload(...)` otherwise. -/
inductive RecoveryAction
  | newPage
  | reload
deriving DecidableEq, Repr

/-- Environment describing how the external renderer behaves for one
target: the outcome of each navigation attempt, whether the page object
is closed when the recovery before attempt `k` runs, whether
`wait_for_selector("article")` finds an item container, and the items
present on the page after a successful navigation. -/
structure TargetEnv where
  nav : ℕ → NavResult
  pageClosedAt : ℕ → Bool
  itemsFound : Bool
  items : List Item

/-- `max_retries = 2` in `process_accounts`. -/
def maxRetries : ℕ := 2

/-- Result of processing one target in the worker's per-target loop. -/
structure TargetResult where
  records : List CaptureRec
  navAttempts : ℕ
  recoveries : List RecoveryAction
  abandoned : Bool
deriving DecidableEq, Repr

/-- The per-target retry loop `while retry_count <= max_retries` of
`process_accounts` (lines 179–315), with the cancellation token unset.
`rc` is `retry_count`; `fuel` bounds the loop structurally (the loop
body runs at most `maxRetries + 1` times, since `retry_count` grows on
every failing iteration and the loop exits once it exceeds
`maxRetries`, so the fuel case below is never reached from
`tryTarget`). -/
def tryTargetFrom (env : TargetEnv) (maxTweets : ℕ) (w : ℚ) :
    ℕ → ℕ → TargetResult
  | rc, 0 => ⟨[], rc, [], true⟩
  | rc, fuel + 1 =>
    match env.nav rc with
    | NavResult.ok =>
      { records := if env.itemsFound then extractLoop env.items maxTweets w else []
        navAttempts := rc + 1
        recoveries := []
        abandoned := false }
    | NavResult.navError =>
      if rc + 1 > maxRetries then
        { records := [], navAttempts := rc + 1, recoveries := [], abandoned := true }
      else
        let rest := tryTargetFrom env maxTweets w (rc + 1) fuel
        { rest with
            recoveries :=
              (if env.pageClosedAt (rc + 1) then RecoveryAction.newPage
               else RecoveryAction.reload) :: rest.recoveries }

/-- Processing of one target: the retry loop entered with
`retry_count = 0`. -/
def tryTarget (env : TargetEnv) (maxTweets : ℕ) (w : ℚ) : TargetResult :=
  tryTargetFrom env maxTweets w 0 (maxRetries + 1)

/-- The worker's `for url in account_batch` loop with the token unset:
records contributed by each target, in batch order. -/
def processBatch (envs : List TargetEnv) (maxTweets : ℕ) (w : ℚ) :
    List CaptureRec :=
  (envs.map (fun e => (tryTarget e maxTweets w).records)).flatten

/-- Observable session lifecycle of one call to `process_accounts`. -/
structure WorkerTrace where
  browserLaunched : Bool
  contextCreated : Bool
  pageCreated : Bool
  records : List CaptureRec
  browserClosed : Bool
deriving DecidableEq, Repr

/-- `process_accounts` (lines 126–348) with the token constant during
the call: when the token is set on entry the worker returns before
launching anything; otherwise it launches a browser, a context and a
page, runs the batch loop, and closes the browser on exit. -/
def processAccounts (stopSet : Bool) (envs : List TargetEnv)
    (maxTweets : ℕ) (w : ℚ) : WorkerTrace :=
  if stopSet then ⟨false, false, false, [], false⟩
  else ⟨true, true, true, processBatch envs maxTweets w, true⟩

/-- The initial phase of `run_automation` (lines 362–410): abort with a
validation error, or proceed into the running state with the round-robin
batches.  The Excel file is assumed present and readable (external
I/O).  `tw`, `mt`, `mw` are the three parsed numeric inputs; only the
emptiness of the link list and the range of the time window are
checked by the code before it proceeds.  `Int.toNat` reflects that
`range(mw)` is empty for a non-positive `mw`. -/
inductive RunPhase
  | abortedValidation
  | running (batches : List (List String))
deriving DecidableEq, Repr

/-- See `RunPhase`. -/
def runAutomationStart (links : List String) (tw mt mw : ℤ) : RunPhase :=
  if links.isEmpty then RunPhase.abortedValidation
  else if tw < 1 ∨ tw > 1440 then RunPhase.abortedValidation
  else
    let _maxTweets := mt
    RunPhase.running (makeBatches links mw.toNat)

/-- Outcome of one Excel write attempt inside `save_excel`: success, a
transient exception, or an `ImportError` (missing `xlsxwriter`). -/
inductive WriteOutcome
  | ok
  | transient
  | importErr
deriving DecidableEq, Repr

/-- Observable behaviour of one `save_excel` call: whether the file was
saved, how many write attempts ran, how many `time.sleep(0.5)` delays
occurred between attempts, and the in-memory records after the call
(the function copies the list and never mutates it). -/
structure SaveTrace where
  saved : Bool
  attempts : ℕ
  delays : ℕ
  recordsOut : List CaptureRec
deriving DecidableEq, Repr

/-- `max_retries = 3` in `save_excel` (total write attempts). -/
def saveMaxRetries : ℕ := 3

/-- The retry loop `for attempt in range(max_retries)` of `save_excel`
(lines 497–527), starting from attempt number `k`: success returns
immediately, an `ImportError` returns failure immediately with no
retry, a transient exception sleeps 0.5 s and retries unless this was
the last attempt. -/
def saveLoop (results : List CaptureRec) (outcome : ℕ → WriteOutcome)
    (k : ℕ) : SaveTrace :=
  match outcome k with
  | WriteOutcome.ok => ⟨true, k + 1, 0, results⟩
  | WriteOutcome.importErr => ⟨false, k + 1, 0, results⟩
  | WriteOutcome.transient =>
    if h : k + 1 < saveMaxRetries then
      let rest := saveLoop results outcome (k + 1)
      { rest with delays := rest.delays + 1 }
    else ⟨false, k + 1, 0, results⟩
termination_by saveMaxRetries - k
decreasing_by omega

/-- `save_excel(results, excel_path)`: an empty result list returns
`False` without attempting a write; otherwise the retry loop runs from
attempt 0. -/
def saveExcel (results : List CaptureRec) (outcome : ℕ → WriteOutcome) :
    SaveTrace :=
  if results.isEmpty then ⟨false, 0, 0, results⟩
  else saveLoop results outcome 0

/-- An interleaving of the per-worker append sequences: `Merge ws out`
holds when `out` is obtained by repeatedly taking the next pending
record of some worker.  Each step is one lock-protected
`results_list.append(...)` (lines 263–271), atomic because it runs
under `results_lock`. -/
inductive Merge : List (List CaptureRec) → List CaptureRec → Prop
  | done (ws : List (List CaptureRec)) (h : ∀ l ∈ ws, l = []) : Merge ws []
  | step (ws : List (List CaptureRec)) (i : ℕ) (a : CaptureRec)
      (rest : List CaptureRec) (out : List CaptureRec)
      (hi : ws[i]? = some (a :: rest))
      (hm : Merge (ws.set i rest) out) : Merge ws (a :: out)

/-- The shared store after a run: the initial contents followed by the
appends in interleaving order.  A snapshot (`save_excel`'s
`list(results)` under the lock) returns exactly this list. -/
def storeAfter (init appended : List CaptureRec) : List CaptureRec :=
  init ++ appended

/-- A concrete pinned item (skipped by the extraction loop). -/
def itemPinned : Item := ⟨true, some 0, "https://x.com/alice/status/1", false⟩

/-- A concrete fresh, qualifying item. -/
def itemFresh : Item := ⟨false, some 0, "https://x.com/alice/status/2", false⟩

/-- A concrete captured record. -/
def recA : CaptureRec := ⟨"alice", "https://x.com/alice/status/1", "alice_1.png", 0⟩

/-- Another concrete captured record. -/
def recB : CaptureRec := ⟨"bob", "https://x.com/bob/status/2", "bob_2.png", 0⟩

/-- A target whose every navigation attempt fails, with the page object
closed before the second retry. -/
def envAllFail : TargetEnv :=
  ⟨fun _ => NavResult.navError, fun k => decide (k = 2), true, []⟩

/-- A target whose navigation succeeds at once and shows one fresh item. -/
def envOk : TargetEnv :=
  ⟨fun _ => NavResult.ok, fun _ => false, true, [itemFresh]⟩

theorem length_filterMap_countP (f : α → Option β) (l : List α) :
    (l.filterMap f).length = l.countP (fun a => (f a).isSome) := by
  induction l with
  | nil => simp
  | cons a t ih =>
    cases hfa : f a <;> simp [List.filterMap_cons, hfa, List.countP_cons, ih]

/-- Claim C1 (corrected), counterexample: with `max_items = 1`, a pinned
item preceding a fresh one exhausts the scan cap, so nothing is emitted,
while with the fresh item first (or under the spec's emitted-count cap,
`extractLoopSpec`) one record is produced: the output is not independent
of how many non-qualifying items precede the qualifying ones. -/
theorem extractLoop_cap_counts_scanned :
    extractLoop [itemPinned, itemFresh] 1 60 = [] ∧
    extractLoop [itemFresh, itemPinned] 1 60 = [mkRecord itemFresh 0] ∧
    extractLoopSpec [itemPinned, itemFresh] 1 60 = [mkRecord itemFresh 0] := by
  have hq : ¬ (minutesAgo 0 > (60 : ℚ)) := by norm_num [minutesAgo]
  refine ⟨?_, ?_, ?_⟩ <;>
    simp [extractLoop, extractLoopSpec, tweetStep, itemPinned, itemFresh, hq]

/-- Claim C1 (corrected), amended: the extraction loop stops after
`max_items` items have been SCANNED, not emitted — it emits exactly the
qualifying items among the first `max_items` items in document order
(so the record count is the number of qualifying items among that
scanned window, and is in particular bounded by `max_items`). -/
theorem extractLoop_scans_prefix (items : List Item) (mt : ℕ) (w : ℚ) :
    (extractLoop items mt w).length =
      (items.take mt).countP (fun it => (tweetStep w it).isSome) ∧
    (extractLoop items mt w).length ≤ mt := by
  constructor
  · exact length_filterMap_countP (tweetStep w) (items.take mt)
  · calc (extractLoop items mt w).length
        ≤ (items.take mt).length := List.length_filterMap_le _ _
      _ ≤ mt := by simp [List.length_take]

/-- Claim C5 (confirmed): the recency filter of the extraction loop is
strict on age: an item whose age in minutes exceeds the window by any
positive amount is excluded, and an item whose age is exactly the
window is included and captured. -/
theorem recency_boundary (w δ ageS : ℚ) (it : Item)
    (hp : it.pinned = false) (ht : it.time = some ageS)
    (hf : it.captureFails = false) :
    (0 < δ → minutesAgo ageS = w + δ → extractLoop [it] 1 w = []) ∧
    (minutesAgo ageS = w → extractLoop [it] 1 w = [mkRecord it ageS]) := by
  constructor
  · intro hδ hage
    have hgt : minutesAgo ageS > w := by rw [hage]; linarith
    simp [extractLoop, tweetStep, hp, ht, hf, hgt]
  · intro hage
    have hirr : ¬ w > w := lt_irrefl w
    simp [extractLoop, tweetStep, hp, ht, hf, hage, hirr]

/-- Witness for C5: the window is 60 minutes; an item 3601 seconds old
(one second past the hour) is excluded, an item exactly 3600 seconds
old is captured. -/
theorem recency_boundary_witness :
    extractLoop [⟨false, some 3601, "u", false⟩] 1 60 = [] ∧
    extractLoop [⟨false, some 3600, "u", false⟩] 1 60 =
      [mkRecord ⟨false, some 3600, "u", false⟩ 3600] := by
  constructor
  · exact (recency_boundary 60 (1/60) 3601 _ rfl rfl rfl).1 (by norm_num)
      (by norm_num [minutesAgo])
  · exact (recency_boundary 60 0 3600 _ rfl rfl rfl).2 (by norm_num [minutesAgo])

/-- Claim C2 (confirmed): when the cancellation token is set at the end
of a run, a non-empty result list is routed to the partial output path,
which differs from the primary path (never overwritten), and an empty
result list writes no file at all. -/
theorem stopped_persistence (stopSet : Bool) (results : List CaptureRec)
    (baseDir runTime : String) (hs : stopSet = true) :
    (results ≠ [] →
      decidePersistence stopSet results baseDir runTime =
        some (partialPath baseDir runTime) ∧
      partialPath baseDir runTime ≠ primaryPath baseDir runTime) ∧
    (results = [] →
      decidePersistence stopSet results baseDir runTime = none) := by
  constructor
  · intro hne
    have hlen : 0 < results.length := List.length_pos.mpr hne
    constructor
    · simp [decidePersistence, hs, hlen]
    · intro heq
      have hlen2 := congrArg String.length heq
      have e1 : "/captured_tweets_".length = 17 := rfl
      have e2 : "_partial.xlsx".length = 13 := rfl
      have e3 : ".xlsx".length = 5 := rfl
      simp only [partialPath, primaryPath, String.length_append, e1, e2, e3] at hlen2
      omega
  · intro he
    simp [decidePersistence, he]

/-- Witness for C2: a stopped run with one record routes to the partial
path and leaves the primary path alone; a stopped run with no records
writes nothing. -/
theorem stopped_persistence_witness :
    (decidePersistence true [recA] "base" "2024-01-01_00-00" =
        some (partialPath "base" "2024-01-01_00-00") ∧
      partialPath "base" "2024-01-01_00-00" ≠
        primaryPath "base" "2024-01-01_00-00") ∧
    decidePersistence true [] "base" "2024-01-01_00-00" = none := by
  constructor
  · exact (stopped_persistence true [recA] "base" "2024-01-01_00-00" rfl).1
      (by decide)
  · exact (stopped_persistence true [] "base" "2024-01-01_00-00" rfl).2 rfl

/-- Claim C4 (corrected), counterexample: a start request with
`max_items_per_target = 0` (out of the claimed range `≥ 1`) still
proceeds past validation into the running state — the code never
range-checks `max_tweets` or `max_workers`. -/
theorem validation_skips_item_cap :
    runAutomationStart ["https://x.com/a"] 60 0 1 ≠
      RunPhase.abortedValidation ∧
    ¬ (1 ≤ (0 : ℤ)) := by
  refine ⟨?_, by decide⟩
  simp [runAutomationStart, makeBatches]

/-- Claim C4 (corrected), amended: a start request proceeds past
validation into the running state exactly when the target list is
non-empty and the time window lies in 1–1440; `max_items_per_target`
and `worker_count` are parsed but not range-checked, so the outcome is
independent of them.  When validation fails the run aborts before any
batch is formed or worker spawned. -/
theorem validation_characterization (links : List String) (tw mt mw : ℤ) :
    runAutomationStart links tw mt mw ≠ RunPhase.abortedValidation ↔
      links ≠ [] ∧ 1 ≤ tw ∧ tw ≤ 1440 := by
  by_cases h1 : links.isEmpty
  · have : links = [] := List.isEmpty_iff.mp h1
    simp [runAutomationStart, h1, this]
  · have hne : links ≠ [] := by simpa [List.isEmpty_iff] using h1
    by_cases h2 : tw < 1 ∨ tw > 1440
    · simp only [runAutomationStart, h1, Bool.false_eq_true, if_false, if_pos h2]
      simp [hne]
      omega
    · simp only [runAutomationStart, h1, Bool.false_eq_true, if_false, if_neg h2]
      simp [hne]
      omega

/-- Claim C7 (confirmed): `save_excel` makes at most 3 write attempts; a
missing `xlsxwriter` (`ImportError`) fails immediately with no retry and
no delay; three consecutive transient failures give exactly 3 attempts
with a 0.5 s delay after each of the first two and a final failure; and
on every outcome the in-memory records survive the call, so the caller's
reported captured count is the true one. -/
theorem save_excel_retry (results : List CaptureRec)
    (outcome : ℕ → WriteOutcome) (hne : results ≠ []) :
    (saveExcel results outcome).attempts ≤ saveMaxRetries ∧
    (outcome 0 = WriteOutcome.importErr →
      saveExcel results outcome = ⟨false, 1, 0, results⟩) ∧
    ((∀ k < saveMaxRetries, outcome k = WriteOutcome.transient) →
      saveExcel results outcome = ⟨false, 3, 2, results⟩) ∧
    (saveExcel results outcome).recordsOut = results := by
  have hne' : results.isEmpty = false := by
    simpa [List.isEmpty_iff] using hne
  refine ⟨?_, ?_, ?_, ?_⟩
  · rcases h0 : outcome 0 <;> rcases h1 : outcome 1 <;> rcases h2 : outcome 2 <;>
      simp [saveExcel, hne', saveLoop, h0, h1, h2, saveMaxRetries]
  · intro h0
    simp [saveExcel, hne', saveLoop, h0]
  · intro hall
    have h0 := hall 0 (by norm_num [saveMaxRetries])
    have h1 := hall 1 (by norm_num [saveMaxRetries])
    have h2 := hall 2 (by norm_num [saveMaxRetries])
    simp [saveExcel, hne', saveLoop, h0, h1, h2, saveMaxRetries]
  · rcases h0 : outcome 0 <;> rcases h1 : outcome 1 <;> rcases h2 : outcome 2 <;>
      simp [saveExcel, hne', saveLoop, h0, h1, h2, saveMaxRetries]

/-- Witness for C7: one record and an always-transient disk: three
attempts, two delays, failure, records intact. -/
theorem save_excel_retry_witness :
    ([recA] : List CaptureRec) ≠ [] ∧
    saveExcel [recA] (fun _ => WriteOutcome.transient) = ⟨false, 3, 2, [recA]⟩ := by
  refine ⟨by decide, ?_⟩
  exact (save_excel_retry [recA] (fun _ => WriteOutcome.transient)
    (by decide)).2.2.1 (fun k _ => rfl)

/-- Claim C3 (confirmed): a target whose every navigation attempt raises
a navigation-class failure is tried exactly `max_retries + 1 = 3` times
and then abandoned with no records; before each retry the worker opens a
fresh page when the page is closed and reloads (reuses) it otherwise;
the abandoned target does not disturb the rest of the batch — the batch
result is the concatenation of the other targets' results; and no
target is ever navigated more than 3 times. -/
theorem nav_retry_policy (env : TargetEnv) (pre post : List TargetEnv)
    (mt : ℕ) (w : ℚ) (hfail : ∀ k, env.nav k = NavResult.navError) :
    (tryTarget env mt w).navAttempts = maxRetries + 1 ∧
    (tryTarget env mt w).abandoned = true ∧
    (tryTarget env mt w).records = [] ∧
    (tryTarget env mt w).recoveries =
      [(if env.pageClosedAt 1 then RecoveryAction.newPage
        else RecoveryAction.reload),
       (if env.pageClosedAt 2 then RecoveryAction.newPage
        else RecoveryAction.reload)] ∧
    processBatch (pre ++ env :: post) mt w =
      processBatch pre mt w ++ processBatch post mt w ∧
    (∀ e : TargetEnv, (tryTarget e mt w).navAttempts ≤ maxRetries + 1) := by
  have h0 := hfail 0
  have h1 := hfail 1
  have h2 := hfail 2
  have hbad : tryTarget env mt w =
      ⟨[], 3, [(if env.pageClosedAt 1 then RecoveryAction.newPage
                else RecoveryAction.reload),
               (if env.pageClosedAt 2 then RecoveryAction.newPage
                else RecoveryAction.reload)], true⟩ := by
    simp [tryTarget, tryTargetFrom, maxRetries, h0, h1, h2]
  refine ⟨by rw [hbad]; rfl, by rw [hbad], by rw [hbad], by rw [hbad], ?_, ?_⟩
  · simp [processBatch, hbad]
  · intro e
    rcases g0 : e.nav 0 <;> rcases g1 : e.nav 1 <;> rcases g2 : e.nav 2 <;>
      simp [tryTarget, tryTargetFrom, maxRetries, g0, g1, g2]

/-- Witness for C3: a target failing all three attempts (page closed
before the second retry only) is abandoned after 3 attempts with a
reload then a fresh page, and a successful sibling target in the same
batch still contributes its record. -/
theorem nav_retry_policy_witness :
    (∀ k, envAllFail.nav k = NavResult.navError) ∧
    (tryTarget envAllFail 5 60).navAttempts = 3 ∧
    (tryTarget envAllFail 5 60).abandoned = true ∧
    (tryTarget envAllFail 5 60).records = [] ∧
    processBatch [envAllFail, envOk] 5 60 = processBatch [envOk] 5 60 := by
  have hfail : ∀ k, envAllFail.nav k = NavResult.navError := fun k => rfl
  have h := nav_retry_policy envAllFail [] [envOk] 5 60 hfail
  exact ⟨hfail, h.1, h.2.1, h.2.2.1,
    by simpa [processBatch] using h.2.2.2.2.1⟩

theorem pySliceStep_nil (W : ℕ) : pySliceStep W ([] : List α) = [] := by
  rw [pySliceStep]

theorem pySliceStep_cons (W : ℕ) (a : α) (rest : List α) :
    pySliceStep W (a :: rest) = a :: pySliceStep W (rest.drop (W - 1)) := by
  rw [pySliceStep]

theorem pySliceStep_length (W : ℕ) (hW : 0 < W) :
    ∀ (n : ℕ) (l : List α), l.length = n →
      (pySliceStep W l).length = (n + (W - 1)) / W := by
  intro n
  induction n using Nat.strong_induction_on with
  | _ n ih =>
    intro l hl
    match l with
    | [] =>
      have hn : n = 0 := by simpa using hl.symm
      subst hn
      rw [pySliceStep_nil]
      simp [Nat.div_eq_of_lt (show W - 1 < W by omega)]
    | a :: rest =>
      have hl' : rest.length + 1 = n := by simpa using hl
      rw [pySliceStep_cons, List.length_cons]
      have hdl : (rest.drop (W - 1)).length = rest.length - (W - 1) := by simp
      have hr := ih (rest.length - (W - 1)) (by omega) (rest.drop (W - 1)) hdl
      rw [hr]
      by_cases hc : W - 1 ≤ rest.length
      · have e1 : rest.length - (W - 1) + (W - 1) = rest.length := by omega
        rw [e1]
        have e2 : n + (W - 1) = rest.length + W := by omega
        rw [e2, Nat.add_div_right _ hW]
      · have e1 : rest.length - (W - 1) = 0 := by omega
        rw [e1, Nat.zero_add, Nat.div_eq_of_lt (show W - 1 < W by omega)]
        have e2 : (n + (W - 1)) / W = 1 := by
          apply Nat.div_eq_of_lt_le <;> omega
        rw [e2]

theorem pySlice_length (l : List α) (i W : ℕ) (hW : 0 < W) :
    (pySlice l i W).length = (l.length - i + (W - 1)) / W := by
  unfold pySlice
  exact pySliceStep_length W hW _ (l.drop i) (by simp)

theorem pySlice_balance (l : List α) (W i j : ℕ) (hW : 0 < W)
    (hi : i < W) (hj : j < W) :
    (pySlice l i W).length ≤ (pySlice l j W).length + 1 := by
  rw [pySlice_length l i W hW, pySlice_length l j W hW]
  have hle : l.length - i + (W - 1) ≤ (l.length - j + (W - 1)) + W := by omega
  calc (l.length - i + (W - 1)) / W
      ≤ ((l.length - j + (W - 1)) + W) / W := Nat.div_le_div_right hle
    _ = (l.length - j + (W - 1)) / W + 1 := Nat.add_div_right _ hW

theorem makeBatches_flatten_perm (W : ℕ) (hW : 0 < W) :
    ∀ l : List α, (makeBatches l W).flatten.Perm l := by
  intro l
  induction l with
  | nil =>
    simp [makeBatches, pySlice, pySliceStep_nil]
  | cons a t ih =>
    obtain ⟨W', rfl⟩ : ∃ W'', W = W'' + 1 := ⟨W - 1, by omega⟩
    have hf0 : pySlice (a :: t) 0 (W' + 1) = a :: pySlice t W' (W' + 1) := by
      simp [pySlice, pySliceStep_cons]
    have hfs : ∀ i : ℕ, pySlice (a :: t) (i + 1) (W' + 1) = pySlice t i (W' + 1) := by
      intro i; simp [pySlice, List.drop_succ_cons]
    have hbat : makeBatches (a :: t) (W' + 1) =
        (a :: pySlice t W' (W' + 1)) ::
          (List.range W').map (fun i => pySlice t i (W' + 1)) := by
      rw [makeBatches, List.range_succ_eq_map, List.map_cons, List.map_map, hf0]
      congr 1
    have hbt : (makeBatches t (W' + 1)).flatten =
        ((List.range W').map (fun i => pySlice t i (W' + 1))).flatten ++
          pySlice t W' (W' + 1) := by
      rw [makeBatches, List.range_succ, List.map_append]
      simp
    rw [hbat, List.flatten_cons, List.cons_append]
    have hX : (pySlice t W' (W' + 1) ++
        ((List.range W').map (fun i => pySlice t i (W' + 1))).flatten).Perm
        ((makeBatches t (W' + 1)).flatten) := by
      rw [hbt]; exact List.perm_append_comm
    exact (hX.cons a).trans (ih.cons a)

/-- Claim C6 (confirmed): for a non-empty target list and `W ≥ 1`
workers, the round-robin partition yields exactly `W` batches, their
concatenation is a permutation of the target list (every target in
exactly one batch, none dropped, none duplicated), and any two batch
sizes differ by at most 1. -/
theorem round_robin_partition (links : List String) (W : ℕ)
    (hne : links ≠ []) (hW : 1 ≤ W) :
    (makeBatches links W).length = W ∧
    (makeBatches links W).flatten.Perm links ∧
    (∀ b1 ∈ makeBatches links W, ∀ b2 ∈ makeBatches links W,
      b1.length ≤ b2.length + 1) := by
  refine ⟨by simp [makeBatches], makeBatches_flatten_perm W hW links, ?_⟩
  intro b1 hb1 b2 hb2
  simp only [makeBatches, List.mem_map, List.mem_range] at hb1 hb2
  obtain ⟨i, hi, rfl⟩ := hb1
  obtain ⟨j, hj, rfl⟩ := hb2
  exact pySlice_balance links W i j hW hi hj

/-- Witness for C6: three targets over two workers. -/
theorem round_robin_partition_witness :
    (["a", "b", "c"] : List String) ≠ [] ∧ (1 : ℕ) ≤ 2 ∧
    ((makeBatches ["a", "b", "c"] 2).length = 2 ∧
     (makeBatches ["a", "b", "c"] 2).flatten.Perm ["a", "b", "c"] ∧
     (∀ b1 ∈ makeBatches ["a", "b", "c"] 2, ∀ b2 ∈ makeBatches ["a", "b", "c"] 2,
       b1.length ≤ b2.length + 1)) :=
  ⟨by decide, by decide,
    round_robin_partition ["a", "b", "c"] 2 (by decide) (by decide)⟩

theorem sep_split {α : Type _} :
    ∀ (a1 a2 b1 b2 : List α) (c : α),
      a1 ++ c :: b1 = a2 ++ c :: b2 → c ∉ a1 → c ∉ a2 → a1 = a2 ∧ b1 = b2 := by
  intro a1
  induction a1 with
  | nil =>
    intro a2 b1 b2 c h hc1 hc2
    cases a2 with
    | nil => simpa using h
    | cons x xs =>
      rw [List.nil_append, List.cons_append] at h
      injection h with h1 h2
      have : c ∈ x :: xs := by rw [h1]; exact List.mem_cons_self x xs
      exact absurd this hc2
  | cons y ys ih =>
    intro a2 b1 b2 c h hc1 hc2
    cases a2 with
    | nil =>
      rw [List.cons_append, List.nil_append] at h
      injection h with h1 h2
      have : c ∈ y :: ys := by rw [← h1]; exact List.mem_cons_self y ys
      exact absurd this hc1
    | cons x xs =>
      rw [List.cons_append, List.cons_append] at h
      injection h with h1 h2
      have hr := ih xs b1 b2 c h2
        (fun hm => hc1 (List.mem_cons_of_mem y hm))
        (fun hm => hc2 (List.mem_cons_of_mem x hm))
      exact ⟨by rw [h1, hr.1], hr.2⟩

theorem append_underscore_inj (h1 t1 h2 t2 : String)
    (ht1 : '_' ∉ t1.data) (ht2 : '_' ∉ t2.data)
    (h : h1 ++ "_" ++ t1 = h2 ++ "_" ++ t2) : h1 = h2 ∧ t1 = t2 := by
  have hd := congrArg String.data h
  simp only [String.data_append] at hd
  rw [List.append_assoc, List.append_assoc, List.singleton_append,
    List.singleton_append] at hd
  have hrev := congrArg List.reverse hd
  simp only [List.reverse_append, List.reverse_cons] at hrev
  rw [List.append_assoc, List.append_assoc, List.singleton_append,
    List.singleton_append] at hrev
  have hsp := sep_split _ _ _ _ '_' hrev
    (by simpa using ht1) (by simpa using ht2)
  exact ⟨String.ext (List.reverse_injective hsp.2),
    String.ext (List.reverse_injective hsp.1)⟩

/-- Claim C8 (confirmed): for items whose permalinks have the canonical
shape `scheme://host/{handle}/status/{id}` with an underscore-free id,
the artifact name `{handle}_{id}.png` is deterministic — the same
permalink always yields the same name — and injective — equal names
force equal handle and id, so two distinct items never collide. -/
theorem artifact_naming (l1 l2 host1 host2 h1 t1 h2 t2 : String)
    (hs1 : pySplit l1 = ["https:", "", host1, h1, "status", t1])
    (hs2 : pySplit l2 = ["https:", "", host2, h2, "status", t2])
    (hd1 : '_' ∉ t1.data) (hd2 : '_' ∉ t2.data) :
    (l1 = l2 → screenshotName l1 = screenshotName l2) ∧
    (screenshotName l1 = screenshotName l2 → h1 = h2 ∧ t1 = t2) := by
  have e1 : screenshotName l1 = h1 ++ "_" ++ t1 ++ ".png" := by
    unfold screenshotName handleOf tweetIdOf
    rw [hs1]
    rfl
  have e2 : screenshotName l2 = h2 ++ "_" ++ t2 ++ ".png" := by
    unfold screenshotName handleOf tweetIdOf
    rw [hs2]
    rfl
  constructor
  · intro h; rw [h]
  · intro h
    rw [e1, e2] at h
    have hdata := congrArg String.data h
    simp only [String.data_append] at hdata
    have hx : h1.data ++ "_".data ++ t1.data = h2.data ++ "_".data ++ t2.data :=
      List.append_cancel_right hdata
    have hstr : h1 ++ "_" ++ t1 = h2 ++ "_" ++ t2 :=
      String.ext (by simpa [String.data_append] using hx)
    exact append_underscore_inj h1 t1 h2 t2 hd1 hd2 hstr

/-- Witness for C8: two canonical permalinks with distinct handles and
ids; both directions of the naming theorem instantiated on them. -/
theorem artifact_naming_witness :
    pySplit "https://x.com/alice/status/111" =
      ["https:", "", "x.com", "alice", "status", "111"] ∧
    ('_' ∉ "111".data) ∧
    (("https://x.com/alice/status/111" : String) =
        "https://x.com/bob/status/222" →
      screenshotName "https://x.com/alice/status/111" =
        screenshotName "https://x.com/bob/status/222") ∧
    (screenshotName "https://x.com/alice/status/111" =
        screenshotName "https://x.com/bob/status/222" →
      ("alice" : String) = "bob" ∧ ("111" : String) = "222") := by
  have h := artifact_naming "https://x.com/alice/status/111"
    "https://x.com/bob/status/222" "x.com" "x.com" "alice" "111" "bob" "222"
    (by decide) (by decide) (by decide) (by decide)
  exact ⟨by decide, by decide, h.1, h.2⟩

/-- Sum of the per-worker pending-append multisets. -/
def msum (ws : List (List CaptureRec)) : Multiset CaptureRec :=
  (ws.map Multiset.ofList).sum

theorem msum_set (ws : List (List CaptureRec)) :
    ∀ (i : ℕ) (a : CaptureRec) (rest : List CaptureRec),
      ws[i]? = some (a :: rest) →
      msum ws = a ::ₘ msum (ws.set i rest) := by
  induction ws with
  | nil => intro i a rest h; simp at h
  | cons hd tl ih =>
    intro i a rest h
    cases i with
    | zero =>
      have hhd : hd = a :: rest := by simpa using h
      subst hhd
      simp only [msum, List.set, List.map_cons, List.sum_cons]
      rw [← Multiset.cons_coe, Multiset.cons_add]
    | succ n =>
      have htl : tl[n]? = some (a :: rest) := by simpa using h
      have hihm := ih n a rest htl
      simp only [msum] at hihm
      simp only [msum, List.set, List.map_cons, List.sum_cons, hihm]
      rw [Multiset.add_cons]

theorem merge_multiset (ws : List (List CaptureRec)) (out : List CaptureRec)
    (h : Merge ws out) : Multiset.ofList out = msum ws := by
  induction h with
  | done ws hws =>
    have hmap : ws.map Multiset.ofList =
        ws.map (fun _ => (0 : Multiset CaptureRec)) :=
      List.map_congr_left (fun l hl => by rw [hws l hl]; rfl)
    simp [msum, hmap]
  | step ws i a rest out hi hm ih =>
    rw [msum_set ws i a rest hi, ← ih, Multiset.cons_coe]

/-- Claim C9 (confirmed): every interleaving of the workers'
lock-protected appends leaves the Result Store holding exactly the
initial contents plus the multiset union of all the workers' appended
records — no record duplicated, none lost — and a snapshot after the
workers finish returns exactly that. -/
theorem result_store_append_atomic (batches : List (List CaptureRec))
    (init appended : List CaptureRec) (h : Merge batches appended) :
    Multiset.ofList (storeAfter init appended) =
      Multiset.ofList init + msum batches := by
  have hm := merge_multiset batches appended h
  show Multiset.ofList (init ++ appended) = _
  rw [← hm]
  rfl

/-- Witness for C9: two workers appending one record each, interleaved
with the second worker's record first. -/
theorem result_store_append_atomic_witness :
    Multiset.ofList (storeAfter [] [recB, recA]) =
      Multiset.ofList ([] : List CaptureRec) + msum [[recA], [recB]] := by
  refine result_store_append_atomic [[recA], [recB]] [] [recB, recA] ?_
  refine Merge.step _ 1 recB [] _ rfl ?_
  refine Merge.step _ 0 recA [] _ rfl ?_
  refine Merge.done _ ?_
  intro l hl
  simp at hl
  rcases hl with rfl | rfl <;> rfl

/-- Claim C10 (confirmed): when the worker count exceeds the number of
targets, the round-robin partition still yields exactly `worker_count`
batches, at least one of them empty, and a worker handed an empty batch
with the token unset still launches a browser, context and page,
appends zero records, and closes the browser before returning. -/
theorem more_workers_than_targets (links : List String) (W mt : ℕ) (w : ℚ)
    (hW : links.length < W) :
    (makeBatches links W).length = W ∧
    (∃ b ∈ makeBatches links W, b = []) ∧
    processAccounts false [] mt w = ⟨true, true, true, [], true⟩ := by
  refine ⟨by simp [makeBatches], ?_, by simp [processAccounts, processBatch]⟩
  refine ⟨pySlice links links.length W, ?_, ?_⟩
  · simp only [makeBatches, List.mem_map, List.mem_range]
    exact ⟨links.length, hW, rfl⟩
  · simp [pySlice, List.drop_length, pySliceStep_nil]

/-- Witness for C10: one target, three workers. -/
theorem more_workers_than_targets_witness :
    (["a"] : List String).length < 3 ∧
    ((makeBatches ["a"] 3).length = 3 ∧
     (∃ b ∈ makeBatches ["a"] 3, b = []) ∧
     processAccounts false [] 5 60 = ⟨true, true, true, [], true⟩) :=
  ⟨by decide, more_workers_than_targets ["a"] 3 5 60 (by decide)⟩
